import Mathlib

/-!
Shallow embedding of the `citro3d` math core
(`src/citro3d/src/math/matrix.rs`, `src/citro3d/src/math/ops.rs`,
`src/citro3d/src/math.rs`).

Floats are modelled by `F32`: finite values idealised as exact rationals,
with NaN and the two infinities represented explicitly, since the code's
equality operator and arithmetic distinguish them.  The C FFI functions of
`citro3d_sys` and the `FVec` definition (`src/citro3d/src/math/fvec.rs`)
are not part of the given sources; each of their models is marked
`Modelled from the spec:` in its doc comment.
-/

namespace Citro3d

/-- Model of an IEEE-754 binary32 value as used by the library: finite
values are idealised as exact rationals (rounding and overflow are not
modelled), while NaN and the two signed infinities are represented
explicitly, because the library's equality operator and its arithmetic
distinguish them.  Signed zero is not modelled (IEEE equality identifies
`0.0` and `-0.0`, so object-level equality results are unaffected). -/
inductive F32 where
  | nan : F32
  | inf (neg : Bool) : F32
  | fin (val : ℚ) : F32
deriving DecidableEq

/-- IEEE `==` on `f32` (Rust `PartialEq::eq` for `f32`): NaN compares
unequal to everything, including itself; infinities compare equal only to
the infinity of the same sign. -/
def F32.beq : F32 → F32 → Bool
  | .fin a, .fin b => decide (a = b)
  | .inf s, .inf t => decide (s = t)
  | _, _ => false

/-- IEEE negation on the `F32` model. -/
def F32.neg : F32 → F32
  | .nan => .nan
  | .inf s => .inf (!s)
  | .fin a => .fin (-a)

/-- IEEE addition on the `F32` model: NaN propagates, and adding
infinities of opposite signs yields NaN. -/
def F32.add : F32 → F32 → F32
  | .nan, _ => .nan
  | .inf _, .nan => .nan
  | .fin _, .nan => .nan
  | .inf s, .inf t => if s = t then .inf s else .nan
  | .inf s, .fin _ => .inf s
  | .fin _, .inf t => .inf t
  | .fin a, .fin b => .fin (a + b)

/-- IEEE subtraction, as addition of the negation. -/
def F32.sub (a b : F32) : F32 := F32.add a (F32.neg b)

/-- IEEE multiplication on the `F32` model: NaN propagates, and
`0 * ±inf = NaN`. -/
def F32.mul : F32 → F32 → F32
  | .nan, _ => .nan
  | .inf _, .nan => .nan
  | .fin _, .nan => .nan
  | .inf s, .inf t => .inf (xor s t)
  | .inf s, .fin b => if b = 0 then .nan else .inf (xor s (decide (b < 0)))
  | .fin a, .inf t => if a = 0 then .nan else .inf (xor (decide (a < 0)) t)
  | .fin a, .fin b => .fin (a * b)

/-- IEEE division on the `F32` model: a nonzero finite value divided by
zero gives an infinity, `0/0` and `inf/inf` give NaN.  (The sign of a zero
quotient is not modelled.) -/
def F32.div : F32 → F32 → F32
  | .nan, _ => .nan
  | .inf _, .nan => .nan
  | .fin _, .nan => .nan
  | .inf _, .inf _ => .nan
  | .inf s, .fin b => .inf (xor s (decide (b < 0)))
  | .fin _, .inf _ => .fin 0
  | .fin a, .fin b =>
    if b = 0 then (if a = 0 then .nan else .inf (decide (a < 0)))
    else .fin (a / b)

/-- Whether the value is finite (neither NaN nor an infinity). -/
def F32.isFin : F32 → Bool
  | .fin _ => true
  | _ => false

/-- The rational carried by a finite value (junk `0` otherwise). -/
def F32.toQ : F32 → ℚ
  | .fin a => a
  | _ => 0

/-- Sum of a list of `F32` values, accumulated right to left starting
from `0.0` (one fixed association order; IEEE addition is not
associative in the presence of infinities). -/
def F32.sum (l : List F32) : F32 := l.foldr F32.add (F32.fin 0)

/-- Model of `citro3d_sys::C3D_FVec`: four `f32` slots `c[0..3]`, which
the hardware layout names `(w, z, y, x)` — the highest-indexed logical
component is stored first. -/
abbrev C3DFVec := Fin 4 → F32

/-- Model of `citro3d_sys::C3D_Mtx`: four rows of four `f32` slots, each
row a `C3D_FVec` in WZYX order. -/
abbrev C3DMtx := Fin 4 → C3DFVec

/-- Model of `citro3d::math::Matrix<M, N>`
(`src/citro3d/src/math/matrix.rs`): the raw 4x4 store plus the shape
invariant.  The Rust type's const assertions `ROW_SIZE` (`M == 3 || M == 4`)
and `COLUMN_SIZE` (`N > 0 && N <= 4`) are evaluated at type-construction
time in the single validating constructor `Matrix::new`, which the private
submodule makes the only way to obtain a value; they are therefore carried
here as proof fields, so that every value of the type satisfies them. -/
structure Matrix (M N : ℕ) where
  raw : C3DMtx
  rowSize : M = 3 ∨ M = 4
  columnSize : 0 < N ∧ N ≤ 4

/-- `Matrix::new`: the validating constructor.  The shape assertions are
the two proof arguments, checked once here and nowhere else. -/
def Matrix.new {M N : ℕ} (value : C3DMtx) (h1 : M = 3 ∨ M = 4)
    (h2 : 0 < N ∧ N ≤ 4) : Matrix M N :=
  ⟨value, h1, h2⟩

/-- `Matrix::as_rows`: trim the 4x4 store down to the `M` live rows and,
within each row, the `N` live slots `c[(4 - N)..]` (the live elements sit
at the end of each physical row, in reverse logical-column order). -/
def Matrix.as_rows {M N : ℕ} (A : Matrix M N) (i : Fin M) (k : Fin N) : F32 :=
  A.raw ⟨i.val, by rcases A.rowSize with h | h <;> omega⟩
    ⟨4 - N + k.val, by have h := A.columnSize; omega⟩

/-- Logical element `(i, j)` of the matrix: row `i`, column `j`, stored at
physical slot `3 - j` of physical row `i` (WZYX reversal). -/
def Matrix.get {M N : ℕ} (A : Matrix M N) (i : Fin M) (j : Fin N) : F32 :=
  A.raw ⟨i.val, by rcases A.rowSize with h | h <;> omega⟩
    ⟨3 - j.val, by omega⟩

/-- `PartialEq for Matrix<M, N>` (`src/citro3d/src/math/ops.rs`):
`self.as_rows() == other.as_rows()`, i.e. element-for-element IEEE `==`
over the logical window only; padding slots are never read. -/
def Matrix.beq {M N : ℕ} (A B : Matrix M N) : Bool :=
  decide (∀ i : Fin M, ∀ k : Fin N, F32.beq (A.as_rows i k) (B.as_rows i k) = true)

/-- Modelled from the spec: `FVec<N>` (`src/citro3d/src/math/fvec.rs` is
not among the given sources) — a 4-slot float block, with the live
elements occupying the last `N` slots in the same WZYX convention as
matrix rows. -/
structure FVec (N : ℕ) where
  raw : C3DFVec

/-- Logical component `i` of the vector, stored at physical slot
`3 - i`. -/
def FVec.get {N : ℕ} (v : FVec N) (i : Fin N) : F32 :=
  v.raw ⟨3 - i.val, by omega⟩

/-- `PartialEq for FVec<N>` (`src/citro3d/src/math/ops.rs`): compares the
slices `self.0.c[(4 - N)..]`, i.e. IEEE `==` over the live slots only. -/
def FVec.beq {N : ℕ} (v w : FVec N) : Bool :=
  decide (∀ s : Fin 4, 4 - N ≤ s.val → F32.beq (v.raw s) (w.raw s) = true)

/-- Modelled from the spec: `FVec3_Scale` / `FVec4_Scale`
(`citro3d_sys`, not among the given sources) — scale element-wise over
the logical window.  Padding slots of the result are set to `0.0` (the
spec leaves them indeterminate; equality never reads them). -/
def FVec.scale {N : ℕ} (v : FVec N) (k : F32) : FVec N :=
  ⟨fun s => if 4 - N ≤ s.val then F32.mul (v.raw s) k else F32.fin 0⟩

/-- `Div<f32> for FVec<N>` (`src/citro3d/src/math/ops.rs`):
`self * (1.0 / rhs)` — scaling by the reciprocal, not a separate
division. -/
def FVec.div {N : ℕ} (v : FVec N) (k : F32) : FVec N :=
  v.scale (F32.div (F32.fin 1) k)

/-- Modelled from the spec: `Mtx_Zeros` (`citro3d_sys`, not among the
given sources) — all storage slots zero. -/
def Mtx_Zeros : C3DMtx := fun _ _ => F32.fin 0

/-- Modelled from the spec: `Mtx_Identity` (`citro3d_sys`, not among the
given sources) — the full 4x4 store becomes the identity matrix
(Kronecker delta rendered in WZYX slot order: slot `s` of row `i` holds
logical column `3 - s`, so the diagonal sits where `i + s = 3`). -/
def Mtx_Identity : C3DMtx :=
  fun i s => if i.val + s.val = 3 then F32.fin 1 else F32.fin 0

/-- Modelled from the spec: `Mtx_Transpose` (`citro3d_sys`, not among the
given sources) — transposes the full 4x4 store in the logical sense.
Logical element `(a, b)` lives at slot `(a, 3 - b)`, so the storage-level
action is the anti-diagonal flip `out[i][s] = in[3 - s][3 - i]`.  Because
each live window sits right-aligned in its rows and top-aligned in its
columns, this restricts to the spec's `(i, j) ↦ (j, i)` on every live
window. -/
def Mtx_Transpose (A : C3DMtx) : C3DMtx :=
  fun i s => A ⟨3 - s.val, by omega⟩ ⟨3 - i.val, by omega⟩

/-- Modelled from the spec: `Mtx_Multiply` (`citro3d_sys`, not among the
given sources) — "standard matrix product over logical elements" for an
`M`x`N` times `N`x`P` product.  Result element `(i, j)` (stored at slot
`(i, 3 - j)`, i.e. at slots `s` with `4 - P ≤ s`) is the dot product of
row `i` of `a` with column `j` of `b` over the `N` live columns/rows;
padding slots of the result are set to `0.0` (the spec leaves them
indeterminate; equality never reads them). -/
def Mtx_Multiply (M N P : ℕ) (hN : N ≤ 4) (a b : C3DMtx) : C3DMtx :=
  fun i s =>
    if i.val < M ∧ 4 - P ≤ s.val then
      F32.sum ((List.finRange N).map fun k =>
        F32.mul (a i ⟨3 - k.val, by omega⟩) (b ⟨k.val, by omega⟩ s))
    else F32.fin 0

/-- The full 4x4 logical product of two stores, used by the transform
composition primitives, which always act on 4x4 transform content. -/
def mtxMul4 (a b : C3DMtx) : C3DMtx :=
  fun i s =>
    F32.sum ((List.finRange 4).map fun k =>
      F32.mul (a i ⟨3 - k.val, by omega⟩) (b k s))

/-- The 4x4 translation matrix: identity with last column
`(x, y, z, 1)` (the last logical column occupies physical slot 0). -/
def translationMtx (x y z : F32) : C3DMtx :=
  fun i s =>
    if s.val = 0 then
      match i.val with
      | 0 => x
      | 1 => y
      | 2 => z
      | _ => F32.fin 1
    else Mtx_Identity i s

/-- The 4x4 scaling matrix `diag(x, y, z, 1)`. -/
def scaleMtx (x y z : F32) : C3DMtx :=
  fun i s =>
    if i.val + s.val = 3 then
      match i.val with
      | 0 => x
      | 1 => y
      | 2 => z
      | _ => F32.fin 1
    else F32.fin 0

/-- Build a store from a logical 4x4 element table (`(i, j)` to slot
`(i, 3 - j)`). -/
def mtxOfFn (f : Fin 4 → Fin 4 → F32) : C3DMtx :=
  fun i s => f i ⟨3 - s.val, by omega⟩

/-- The 4x4 rotation matrix about the X axis, written in terms of the
cosine `c` and sine `s` of the angle. -/
def rotXMtx (c s : F32) : C3DMtx :=
  mtxOfFn fun i j =>
    match i.val, j.val with
    | 1, 1 => c
    | 1, 2 => F32.neg s
    | 2, 1 => s
    | 2, 2 => c
    | a, b => if a = b then F32.fin 1 else F32.fin 0

/-- The 4x4 rotation matrix about the Y axis, in terms of cosine and
sine. -/
def rotYMtx (c s : F32) : C3DMtx :=
  mtxOfFn fun i j =>
    match i.val, j.val with
    | 0, 0 => c
    | 0, 2 => s
    | 2, 0 => F32.neg s
    | 2, 2 => c
    | a, b => if a = b then F32.fin 1 else F32.fin 0

/-- The 4x4 rotation matrix about the Z axis, in terms of cosine and
sine. -/
def rotZMtx (c s : F32) : C3DMtx :=
  mtxOfFn fun i j =>
    match i.val, j.val with
    | 0, 0 => c
    | 0, 1 => F32.neg s
    | 1, 0 => s
    | 1, 1 => c
    | a, b => if a = b then F32.fin 1 else F32.fin 0

/-- The 4x4 rotation matrix about an arbitrary axis `(x, y, z)` (assumed
unit), by the Rodrigues formula, in terms of the cosine `c` and sine `s`
of the angle. -/
def rotAxisMtx (axis : FVec 3) (c s : F32) : C3DMtx :=
  mtxOfFn fun i j =>
    match i.val, j.val with
    | 0, 0 => F32.add c (F32.mul (F32.mul (axis.get 0) (axis.get 0)) (F32.sub (F32.fin 1) c))
    | 0, 1 => F32.sub (F32.mul (F32.mul (axis.get 0) (axis.get 1)) (F32.sub (F32.fin 1) c)) (F32.mul (axis.get 2) s)
    | 0, 2 => F32.add (F32.mul (F32.mul (axis.get 0) (axis.get 2)) (F32.sub (F32.fin 1) c)) (F32.mul (axis.get 1) s)
    | 1, 0 => F32.add (F32.mul (F32.mul (axis.get 1) (axis.get 0)) (F32.sub (F32.fin 1) c)) (F32.mul (axis.get 2) s)
    | 1, 1 => F32.add c (F32.mul (F32.mul (axis.get 1) (axis.get 1)) (F32.sub (F32.fin 1) c))
    | 1, 2 => F32.sub (F32.mul (F32.mul (axis.get 1) (axis.get 2)) (F32.sub (F32.fin 1) c)) (F32.mul (axis.get 0) s)
    | 2, 0 => F32.sub (F32.mul (F32.mul (axis.get 2) (axis.get 0)) (F32.sub (F32.fin 1) c)) (F32.mul (axis.get 1) s)
    | 2, 1 => F32.add (F32.mul (F32.mul (axis.get 2) (axis.get 1)) (F32.sub (F32.fin 1) c)) (F32.mul (axis.get 0) s)
    | 2, 2 => F32.add c (F32.mul (F32.mul (axis.get 2) (axis.get 2)) (F32.sub (F32.fin 1) c))
    | a, b => if a = b then F32.fin 1 else F32.fin 0

/-- Modelled from the spec: `Mtx_Translate` with `bRightSide = false`
(`citro3d_sys`, not among the given sources) — composes the translation
into the existing transform as `result = existing * new` (in the
row-vector reading, the new transform acts on coordinates after the
existing matrix's effect). -/
def Mtx_Translate (m : C3DMtx) (x y z : F32) : C3DMtx :=
  mtxMul4 m (translationMtx x y z)

/-- Modelled from the spec: `Mtx_Scale` (`citro3d_sys`, not among the
given sources) — composes the scale as `result = existing * new`. -/
def Mtx_Scale (m : C3DMtx) (x y z : F32) : C3DMtx :=
  mtxMul4 m (scaleMtx x y z)

/-- Modelled from the spec: `Mtx_Rotate` with `bRightSide = false`
(`citro3d_sys`, not among the given sources) — composes the axis-angle
rotation as `result = existing * new`.  The trigonometric evaluation of
the angle is not modelled: the rotation is parametrised directly by the
cosine `c` and sine `s` of the angle. -/
def Mtx_Rotate (m : C3DMtx) (axis : FVec 3) (c s : F32) : C3DMtx :=
  mtxMul4 m (rotAxisMtx axis c s)

/-- Modelled from the spec: `Mtx_RotateX` with `bRightSide = false`,
parametrised by cosine and sine. -/
def Mtx_RotateX (m : C3DMtx) (c s : F32) : C3DMtx :=
  mtxMul4 m (rotXMtx c s)

/-- Modelled from the spec: `Mtx_RotateY` with `bRightSide = false`,
parametrised by cosine and sine. -/
def Mtx_RotateY (m : C3DMtx) (c s : F32) : C3DMtx :=
  mtxMul4 m (rotYMtx c s)

/-- Modelled from the spec: `Mtx_RotateZ` with `bRightSide = false`,
parametrised by cosine and sine. -/
def Mtx_RotateZ (m : C3DMtx) (c s : F32) : C3DMtx :=
  mtxMul4 m (rotZMtx c s)

/-- Window access of a raw store as a total function on `ℕ` indices:
logical element `(i, j)` at slot `(i, 3 - j)` (the `% 4` guards keep the
function total; they are the identity on all indices the callers use). -/
def windowFn (A : C3DMtx) : ℕ → ℕ → F32 :=
  fun i j => A ⟨i % 4, by omega⟩ ⟨(3 - j) % 4, by omega⟩

/-- Delete row `r` and column `c` from an element table. -/
def minorFn (f : ℕ → ℕ → F32) (r c : ℕ) : ℕ → ℕ → F32 :=
  fun i j => f (if i < r then i else i + 1) (if j < c then j else j + 1)

/-- The alternating sign `(-1)^j` of the Laplace expansion, written
without powers so that it evaluates by kernel reduction. -/
def expSign (j : ℕ) : ℚ := if j % 2 = 0 then 1 else -1

/-- Determinant of the leading `n`x`n` block of an element table, by
Laplace expansion along the first row, over `F32` arithmetic. -/
def detAux : ℕ → (ℕ → ℕ → F32) → F32
  | 0, _ => F32.fin 1
  | n + 1, f =>
    F32.sum ((List.range (n + 1)).map fun j =>
      F32.mul (F32.fin (expSign j))
        (F32.mul (f 0 j) (detAux n (minorFn f 0 j))))

/-- Cofactor `(r, c)` of the leading `n`x`n` block of an element table. -/
def cofactor (n : ℕ) (f : ℕ → ℕ → F32) (r c : ℕ) : F32 :=
  F32.mul (F32.fin (expSign (r + c))) (detAux (n - 1) (minorFn f r c))

/-- Determinant of the logical `n`x`n` window of a store. -/
def windowDet (n : ℕ) (A : C3DMtx) : F32 :=
  detAux n (windowFn A)

/-- Modelled from the spec: `Mtx_Inverse` (`citro3d_sys`, not among the
given sources) — computes the determinant of the logical window and
returns it; if the determinant compares `== 0.0` the store is left
unchanged, otherwise the window is replaced by the inverse (adjugate
scaled by the reciprocal of the determinant). -/
def mtxInverse (n : ℕ) (A : C3DMtx) : F32 × C3DMtx :=
  let d := windowDet n A
  if F32.beq d (F32.fin 0) then (d, A)
  else
    (d, fun i s =>
      if i.val < n ∧ 4 - n ≤ s.val then
        F32.mul (cofactor n (windowFn A) (3 - s.val) i.val)
          (F32.div (F32.fin 1) d)
      else A i s)

/-- `Matrix::zero` (`src/citro3d/src/math/matrix.rs`). -/
def Matrix.zero {M N : ℕ} (h1 : M = 3 ∨ M = 4) (h2 : 0 < N ∧ N ≤ 4) :
    Matrix M N :=
  Matrix.new Mtx_Zeros h1 h2

/-- `Matrix::identity` (`src/citro3d/src/math/matrix.rs`, square only). -/
def Matrix.identity (N : ℕ) (hN : N = 3 ∨ N = 4) : Matrix N N :=
  Matrix.new Mtx_Identity hN (by rcases hN with h | h <;> omega)

/-- `Matrix::transpose` (`src/citro3d/src/math/matrix.rs`): transposes
the store in place and rebuilds at the swapped shape through
`Matrix::new`, whose assertions require `N ∈ {3, 4}` (hence the proof
argument, mirroring the compile-time check on the output shape). -/
def Matrix.transpose {M N : ℕ} (A : Matrix M N) (hN : N = 3 ∨ N = 4) :
    Matrix N M :=
  Matrix.new (Mtx_Transpose A.raw) hN
    (by rcases A.rowSize with h | h <;> omega)

/-- `Mul<&Matrix<N, P>> for &Matrix<M, N>`
(`src/citro3d/src/math/ops.rs`): `Mtx_Multiply` into a fresh store,
rebuilt at shape `M`x`P` through `Matrix::new` (hence the proof argument
for the output column count, mirroring the compile-time check). -/
def Matrix.mul {M N P : ℕ} (A : Matrix M N) (B : Matrix N P)
    (hP : 0 < P ∧ P ≤ 4) : Matrix M P :=
  Matrix.new (Mtx_Multiply M N P A.columnSize.2 A.raw B.raw) A.rowSize hP

/-- `Matrix::translate` (`src/citro3d/src/math/matrix.rs`): in-place
`Mtx_Translate` with `bRightSide = false`. -/
def Matrix.translate {M N : ℕ} (A : Matrix M N) (x y z : F32) : Matrix M N :=
  Matrix.new (Mtx_Translate A.raw x y z) A.rowSize A.columnSize

/-- `Matrix::scale` (`src/citro3d/src/math/matrix.rs`): in-place
`Mtx_Scale`. -/
def Matrix.scale {M N : ℕ} (A : Matrix M N) (x y z : F32) : Matrix M N :=
  Matrix.new (Mtx_Scale A.raw x y z) A.rowSize A.columnSize

/-- `Matrix::rotate` (`src/citro3d/src/math/matrix.rs`): in-place
`Mtx_Rotate` with `bRightSide = false`, parametrised by the cosine and
sine of the angle. -/
def Matrix.rotate {M N : ℕ} (A : Matrix M N) (axis : FVec 3) (c s : F32) :
    Matrix M N :=
  Matrix.new (Mtx_Rotate A.raw axis c s) A.rowSize A.columnSize

/-- `Matrix::rotate_x` (`src/citro3d/src/math/matrix.rs`). -/
def Matrix.rotate_x {M N : ℕ} (A : Matrix M N) (c s : F32) : Matrix M N :=
  Matrix.new (Mtx_RotateX A.raw c s) A.rowSize A.columnSize

/-- `Matrix::rotate_y` (`src/citro3d/src/math/matrix.rs`). -/
def Matrix.rotate_y {M N : ℕ} (A : Matrix M N) (c s : F32) : Matrix M N :=
  Matrix.new (Mtx_RotateY A.raw c s) A.rowSize A.columnSize

/-- `Matrix::rotate_z` (`src/citro3d/src/math/matrix.rs`). -/
def Matrix.rotate_z {M N : ℕ} (A : Matrix M N) (c s : F32) : Matrix M N :=
  Matrix.new (Mtx_RotateZ A.raw c s) A.rowSize A.columnSize

/-- `Matrix::inverse` (`src/citro3d/src/math/matrix.rs`, square only):
`Mtx_Inverse` mutates the store in place and returns the determinant;
the wrapper returns `Err(self)` when the determinant compared `== 0.0`
and `Ok(self)` otherwise — in both cases carrying the post-call value. -/
def Matrix.inverse {N : ℕ} (A : Matrix N N) :
    Except (Matrix N N) (Matrix N N) :=
  let r := mtxInverse N A.raw
  let m : Matrix N N := Matrix.new r.2 A.rowSize A.columnSize
  if F32.beq r.1 (F32.fin 0) then Except.error m else Except.ok m

/-- Modelled from the spec: `Mtx_MultiplyFVec4` (`citro3d_sys`, not
among the given sources) — logical component `i` of the result (slot
`3 - i`) is the dot product of physical row `i` of the matrix with the
vector, taken over all four slots. -/
def Mtx_MultiplyFVec4 (A : C3DMtx) (v : C3DFVec) : C3DFVec :=
  fun s =>
    F32.sum ((List.finRange 4).map fun t =>
      F32.mul (A ⟨3 - s.val, by omega⟩ t) (v t))

/-- Homogeneous promotion of the storage of a 3-vector: the fourth
logical coordinate (physical slot 0) becomes `1.0`. -/
def promoteH (v : C3DFVec) : C3DFVec :=
  fun s => if s.val = 0 then F32.fin 1 else v s

/-- Modelled from the spec: `Mtx_MultiplyFVecH` (`citro3d_sys`, not
among the given sources) — sets the vector's fourth coordinate to `1.0`
and multiplies as a 4-vector. -/
def Mtx_MultiplyFVecH (A : C3DMtx) (v : C3DFVec) : C3DFVec :=
  Mtx_MultiplyFVec4 A (promoteH v)

/-- `Mul<FVec4> for &Matrix4` (`src/citro3d/src/math/ops.rs`). -/
def Matrix.mulFVec4 (A : Matrix 4 4) (v : FVec 4) : FVec 4 :=
  ⟨Mtx_MultiplyFVec4 A.raw v.raw⟩

/-- `Mul<FVec3> for &Matrix<4, 3>` (`src/citro3d/src/math/ops.rs`):
`Mtx_MultiplyFVecH`. -/
def Matrix.mulFVecH (A : Matrix 4 3) (v : FVec 3) : FVec 4 :=
  ⟨Mtx_MultiplyFVecH A.raw v.raw⟩

/-- A concrete 4x3 matrix with pairwise distinct live entries, used to
evaluate the theorems on explicit inputs. -/
def sample43 : Matrix 4 3 :=
  Matrix.new (fun i s => F32.fin ((10 * i.val + s.val : ℕ) : ℚ)) (Or.inr rfl)
    (by omega)

/-- A concrete 3x3 matrix whose logical window holds one NaN (at logical
element `(0, 0)`, physical slot `(0, 3)`). -/
def sample33nan : Matrix 3 3 :=
  Matrix.new
    (fun i s =>
      if i.val = 0 ∧ s.val = 3 then F32.nan
      else F32.fin ((i.val + s.val : ℕ) : ℚ))
    (Or.inl rfl) (by omega)

/-- A concrete 3x3 matrix all of whose slots hold `+inf`. -/
def sample33inf : Matrix 3 3 :=
  Matrix.new (fun _ _ => F32.inf false) (Or.inl rfl) (by omega)

/-- A concrete finite 3x3 matrix. -/
def sample33 : Matrix 3 3 :=
  Matrix.new (fun i s => F32.fin ((10 * i.val + s.val + 1 : ℕ) : ℚ))
    (Or.inl rfl) (by omega)

/-- The all-zero 4x4 matrix (a singular input for `inverse`). -/
def zero44 : Matrix 4 4 :=
  Matrix.zero (Or.inr rfl) (by omega)

/-- A 4x4 matrix all of whose slots hold `+inf`: its window determinant
evaluates to NaN, which the singularity check `== 0.0` rejects, so
`inverse` takes the `Ok` branch. -/
def inf44 : Matrix 4 4 :=
  Matrix.new (fun _ _ => F32.inf false) (Or.inr rfl) (by omega)

/-- A concrete 4x4 matrix sharing its storage with `sample43`, used to
state the homogeneous-promotion claim. -/
def sample44shared : Matrix 4 4 :=
  Matrix.new sample43.raw (Or.inr rfl) (by omega)

/-- A concrete 3-vector `(5, 6, 7)` with a nonzero padding slot, so that
padding-insensitivity is exercised. -/
def sampleVec3 : FVec 3 :=
  ⟨fun s =>
    match s.val with
    | 0 => F32.fin 9
    | 1 => F32.fin 7
    | 2 => F32.fin 6
    | _ => F32.fin 5⟩

/-- The same logical 3-vector `(5, 6, 7)` as `sampleVec3` but with a
different padding slot. -/
def sampleVec3pad : FVec 3 :=
  ⟨fun s =>
    match s.val with
    | 0 => F32.fin 42
    | 1 => F32.fin 7
    | 2 => F32.fin 6
    | _ => F32.fin 5⟩

/-- A concrete 3-vector containing a NaN component. -/
def sampleVec3nan : FVec 3 :=
  ⟨fun s => if s.val = 2 then F32.nan else F32.fin 1⟩

/-- Two applications of a store to index pairs with equal values are
equal (the bound proofs are irrelevant). -/
theorem raw_ext (A : C3DMtx) {a b c d : ℕ} {p : a < 4} {q : c < 4}
    {r : b < 4} {t : d < 4} (hab : a = b) (hcd : c = d) :
    A ⟨a, p⟩ ⟨c, q⟩ = A ⟨b, r⟩ ⟨d, t⟩ := by
  subst hab; subst hcd; rfl

/-- Vector version of `raw_ext`. -/
theorem vraw_ext (v : C3DFVec) {a b : ℕ} {p : a < 4} {q : b < 4}
    (h : a = b) : v ⟨a, p⟩ = v ⟨b, q⟩ := by
  subst h; rfl

/-- IEEE `==` is reflexive exactly away from NaN. -/
theorem F32.beq_refl_iff (x : F32) : F32.beq x x = true ↔ x ≠ F32.nan := by
  cases x <;> simp [F32.beq]

/-- Comparing `== 0.0` succeeds exactly on the finite value zero (NaN
and the infinities compare unequal to zero). -/
theorem F32.beq_zero_iff (x : F32) :
    F32.beq x (F32.fin 0) = true ↔ x = F32.fin 0 := by
  cases x <;> simp [F32.beq]

theorem F32.mul_fin (a b : ℚ) :
    F32.mul (F32.fin a) (F32.fin b) = F32.fin (a * b) := rfl

theorem F32.add_fin (a b : ℚ) :
    F32.add (F32.fin a) (F32.fin b) = F32.fin (a + b) := rfl

/-- A sum of finite values is the finite value of the rational sum. -/
theorem F32.sum_map_fin {α : Type} (l : List α) (g : α → ℚ) :
    F32.sum (l.map fun a => F32.fin (g a)) = F32.fin (l.map g).sum := by
  induction l with
  | nil => rfl
  | cons a t ih =>
    simp only [List.map_cons, F32.sum, List.foldr_cons, List.sum_cons]
    have h : List.foldr F32.add (F32.fin 0) (t.map fun a => F32.fin (g a)) =
        F32.fin (t.map g).sum := ih
    rw [h, F32.add_fin]

/-- `Matrix` equality (`as_rows` comparison) is equivalent to IEEE `==`
agreement on every logical element. -/
theorem Matrix.beq_iff_get {M N : ℕ} (A B : Matrix M N) :
    Matrix.beq A B = true ↔
      ∀ i : Fin M, ∀ j : Fin N, F32.beq (A.get i j) (B.get i j) = true := by
  have hN := A.columnSize
  simp only [Matrix.beq, decide_eq_true_eq]
  constructor
  · intro h i j
    have hj := j.isLt
    have h2 := h i ⟨N - 1 - j.val, by omega⟩
    have e1 : A.as_rows i ⟨N - 1 - j.val, by omega⟩ = A.get i j :=
      raw_ext A.raw rfl (by show 4 - N + (N - 1 - j.val) = 3 - j.val; omega)
    have e2 : B.as_rows i ⟨N - 1 - j.val, by omega⟩ = B.get i j :=
      raw_ext B.raw rfl (by show 4 - N + (N - 1 - j.val) = 3 - j.val; omega)
    rwa [e1, e2] at h2
  · intro h i k
    have hk := k.isLt
    have h2 := h i ⟨N - 1 - k.val, by omega⟩
    have e1 : A.as_rows i k = A.get i ⟨N - 1 - k.val, by omega⟩ :=
      raw_ext A.raw rfl (by show 4 - N + k.val = 3 - (N - 1 - k.val); omega)
    have e2 : B.as_rows i k = B.get i ⟨N - 1 - k.val, by omega⟩ :=
      raw_ext B.raw rfl (by show 4 - N + k.val = 3 - (N - 1 - k.val); omega)
    rw [e1, e2]
    exact h2

/-- `Matrix` equality reads nothing but the raw store (at a fixed
shape). -/
theorem Matrix.beq_raw_congr {M N : ℕ} (A B C : Matrix M N)
    (h : A.raw = C.raw) : Matrix.beq A B = Matrix.beq C B := by
  simp only [Matrix.beq, Matrix.as_rows, h]

/-- Self-comparison of a matrix succeeds exactly when the logical window
is NaN-free. -/
theorem Matrix.beq_self_iff {M N : ℕ} (A : Matrix M N) :
    Matrix.beq A A = true ↔
      ∀ i : Fin M, ∀ j : Fin N, A.get i j ≠ F32.nan := by
  rw [Matrix.beq_iff_get]
  simp only [F32.beq_refl_iff]

/-- `FVec` equality (live-slot slice comparison) is equivalent to IEEE
`==` agreement on every logical component. -/
theorem FVec.veq_iff_get {N : ℕ} (hN4 : N ≤ 4) (v w : FVec N) :
    FVec.beq v w = true ↔
      ∀ i : Fin N, F32.beq (v.get i) (w.get i) = true := by
  simp only [FVec.beq, decide_eq_true_eq]
  constructor
  · intro h i
    have hi := i.isLt
    exact h ⟨3 - i.val, by omega⟩ (by show 4 - N ≤ 3 - i.val; omega)
  · intro h s hs
    have hs4 := s.isLt
    have h2 := h ⟨3 - s.val, by omega⟩
    have e1 : FVec.get v ⟨3 - s.val, by omega⟩ = v.raw s :=
      vraw_ext v.raw (by show 3 - (3 - s.val) = s.val; omega)
    have e2 : FVec.get w ⟨3 - s.val, by omega⟩ = w.raw s :=
      vraw_ext w.raw (by show 3 - (3 - s.val) = s.val; omega)
    rwa [e1, e2] at h2

/-- `FVec` equality reads nothing but the raw storage. -/
theorem FVec.veq_raw_congr {N : ℕ} (v w u : FVec N) (h : v.raw = u.raw) :
    FVec.beq v w = FVec.beq u w := by
  simp only [FVec.beq, h]

/-- Self-comparison of a vector succeeds exactly when the logical window
is NaN-free. -/
theorem FVec.veq_self_iff {N : ℕ} (hN4 : N ≤ 4) (v : FVec N) :
    FVec.beq v v = true ↔ ∀ i : Fin N, v.get i ≠ F32.nan := by
  rw [FVec.veq_iff_get hN4]
  simp only [F32.beq_refl_iff]

/-- Logical element `(i, j)` of a product is the dot product, over the
`N` live columns of the left factor, of row `i` with column `j`. -/
theorem Matrix.get_mul {M N P : ℕ} (A : Matrix M N) (B : Matrix N P)
    (hP : 0 < P ∧ P ≤ 4) (i : Fin M) (j : Fin P) :
    (A.mul B hP).get i j =
      F32.sum ((List.finRange N).map fun k =>
        F32.mul (A.get i k) (B.get k j)) := by
  have hj := j.isLt
  have hi := i.isLt
  show Mtx_Multiply M N P A.columnSize.2 A.raw B.raw _ _ = _
  rw [Mtx_Multiply, if_pos (⟨hi, by show 4 - P ≤ 3 - j.val; omega⟩ :
    i.val < M ∧ 4 - P ≤ 3 - j.val)]
  rfl

/-- Logical elements of `identity()` form the Kronecker delta. -/
theorem Matrix.get_identity {N : ℕ} (hN : N = 3 ∨ N = 4) (i j : Fin N) :
    (Matrix.identity N hN).get i j =
      if i = j then F32.fin 1 else F32.fin 0 := by
  have hi := i.isLt
  have hj := j.isLt
  have hN4 : N ≤ 4 := by rcases hN with h | h <;> omega
  show Mtx_Identity _ _ = _
  rw [Mtx_Identity]
  have h : (i.val + (3 - j.val) = 3) ↔ i = j := by
    rw [Fin.ext_iff]; constructor <;> (intro h2; omega)
  simp only [h]

/-- Multiplying a finite value by the Kronecker delta and summing over
the live range selects that value: the left-identity dot product. -/
theorem F32.delta_dot {N : ℕ} (i : Fin N) (q : Fin N → ℚ) :
    F32.sum ((List.finRange N).map fun k =>
      F32.mul (if i = k then F32.fin 1 else F32.fin 0) (F32.fin (q k))) =
      F32.fin (q i) := by
  have h : (fun k => F32.mul (if i = k then F32.fin 1 else F32.fin 0)
      (F32.fin (q k))) =
      fun k => F32.fin (if i = k then q k else 0) := by
    funext k
    by_cases hik : i = k <;> simp [hik, F32.mul]
  rw [h, F32.sum_map_fin]
  congr 1
  rw [← Fin.sum_univ_def]
  simp [Finset.sum_ite_eq]

/-- The right-identity dot product. -/
theorem F32.dot_delta {N : ℕ} (j : Fin N) (q : Fin N → ℚ) :
    F32.sum ((List.finRange N).map fun k =>
      F32.mul (F32.fin (q k)) (if k = j then F32.fin 1 else F32.fin 0)) =
      F32.fin (q j) := by
  have h : (fun k => F32.mul (F32.fin (q k))
      (if k = j then F32.fin 1 else F32.fin 0)) =
      fun k => F32.fin (if k = j then q k else 0) := by
    funext k
    by_cases hkj : k = j <;> simp [hkj, F32.mul]
  rw [h, F32.sum_map_fin]
  congr 1
  rw [← Fin.sum_univ_def]
  simp [Finset.sum_ite_eq']

/-- A finite value is the `fin` of its carried rational. -/
theorem F32.eq_fin_toQ {x : F32} (h : x.isFin = true) :
    x = F32.fin x.toQ := by
  cases x with
  | nan => simp [F32.isFin] at h
  | inf s => simp [F32.isFin] at h
  | fin a => rfl

/-- Multiplying any value by `+inf` never yields a finite value. -/
theorem F32.mul_posinf_not_fin (x : F32) :
    (F32.mul x (F32.inf false)).isFin = false := by
  rcases x with _ | t | a
  · rfl
  · rfl
  · by_cases ha : a = 0 <;> simp [F32.mul, ha, F32.isFin]

/-- `Matrix` equality depends only on the logical window: replacing one
operand by a matrix with the same logical window (padding arbitrary)
leaves the result unchanged. -/
theorem Matrix.beq_window_congr {M N : ℕ} (A B C : Matrix M N)
    (h : ∀ i j, C.get i j = A.get i j) :
    Matrix.beq C B = Matrix.beq A B := by
  rw [Bool.eq_iff_iff, Matrix.beq_iff_get, Matrix.beq_iff_get]
  simp only [h]

/-- `FVec` equality depends only on the logical window. -/
theorem FVec.veq_window_congr {N : ℕ} (hN4 : N ≤ 4) (v w u : FVec N)
    (h : ∀ i, u.get i = v.get i) :
    FVec.beq u w = FVec.beq v w := by
  rw [Bool.eq_iff_iff, FVec.veq_iff_get hN4, FVec.veq_iff_get hN4]
  simp only [h]

/-- The first component of `Mtx_Inverse`'s model is the window
determinant, whichever branch is taken. -/
theorem mtxInverse_fst (n : ℕ) (A : C3DMtx) :
    (mtxInverse n A).1 = windowDet n A := by
  rw [mtxInverse]
  split
  · rfl
  · rfl

/-- When the determinant compares `== 0.0`, `Mtx_Inverse` leaves the
store unchanged. -/
theorem mtxInverse_of_beq_zero (n : ℕ) (A : C3DMtx)
    (h : F32.beq (windowDet n A) (F32.fin 0) = true) :
    mtxInverse n A = (windowDet n A, A) := by
  rw [mtxInverse]
  simp [h]

/-- The Laplace expansion of the all-zero element table is a finite
value at every order (used to evaluate the zero matrix's determinant). -/
theorem detAux_zeroFn_aux (n : ℕ) :
    ∃ q : ℚ, detAux n (fun _ _ => F32.fin 0) = F32.fin q := by
  induction n with
  | zero => exact ⟨1, rfl⟩
  | succ n ih =>
    obtain ⟨q, hq⟩ := ih
    refine ⟨((List.range (n + 1)).map fun j => expSign j * (0 * q)).sum, ?_⟩
    rw [detAux]
    have hmap : ∀ j ∈ List.range (n + 1),
        F32.mul (F32.fin (expSign j))
          (F32.mul ((fun _ _ => F32.fin 0) 0 j)
            (detAux n (minorFn (fun _ _ => F32.fin 0) 0 j))) =
        F32.fin (expSign j * (0 * q)) := by
      intro j _
      show F32.mul (F32.fin (expSign j))
        (F32.mul (F32.fin 0) (detAux n (fun _ _ => F32.fin 0))) = _
      rw [hq, F32.mul_fin, F32.mul_fin]
    rw [List.map_congr_left hmap, F32.sum_map_fin]

/-- The window determinant of the all-zero store is exactly zero. -/
theorem detAux_zeroFn (n : ℕ) :
    detAux (n + 1) (fun _ _ => F32.fin 0) = F32.fin 0 := by
  obtain ⟨q, hq⟩ := detAux_zeroFn_aux n
  rw [detAux]
  have hmap : ∀ j ∈ List.range (n + 1),
      F32.mul (F32.fin (expSign j))
        (F32.mul ((fun _ _ => F32.fin 0) 0 j)
          (detAux n (minorFn (fun _ _ => F32.fin 0) 0 j))) =
      F32.fin (expSign j * (0 * q)) := by
    intro j _
    show F32.mul (F32.fin (expSign j))
      (F32.mul (F32.fin 0) (detAux n (fun _ _ => F32.fin 0))) = _
    rw [hq, F32.mul_fin, F32.mul_fin]
  rw [List.map_congr_left hmap, F32.sum_map_fin]
  congr 1
  apply List.sum_eq_zero
  intro x hx
  obtain ⟨j, _, hj⟩ := List.mem_map.mp hx
  rw [← hj]
  ring

/-- The determinant of the all-zero 4x4 store is zero. -/
theorem windowDet_zero : windowDet 4 Mtx_Zeros = F32.fin 0 := by
  show detAux 4 (windowFn Mtx_Zeros) = F32.fin 0
  have h : windowFn Mtx_Zeros = fun _ _ => F32.fin 0 := rfl
  rw [h]
  exact detAux_zeroFn 3

/-- Claim C1: for every square matrix, `inverse()` fails with the
original matrix (the `Err` value equal to the input) exactly when the
determinant of the logical window is zero, and succeeds (`Ok`) whenever
the determinant is nonzero. -/
theorem claim1_inverse_result (N : ℕ) (A : Matrix N N) :
    (windowDet N A.raw = F32.fin 0 → A.inverse = Except.error A) ∧
    (windowDet N A.raw ≠ F32.fin 0 → A.inverse.isOk = true) := by
  obtain ⟨raw, h1, h2⟩ := A
  constructor
  · intro h
    have hbeq : F32.beq (windowDet N raw) (F32.fin 0) = true :=
      (F32.beq_zero_iff _).mpr h
    show (if F32.beq (mtxInverse N raw).1 (F32.fin 0) = true
        then Except.error (Matrix.new (mtxInverse N raw).2 h1 h2)
        else Except.ok (Matrix.new (mtxInverse N raw).2 h1 h2)) =
      Except.error ⟨raw, h1, h2⟩
    rw [mtxInverse_of_beq_zero N raw hbeq]
    simp [hbeq, Matrix.new]
  · intro h
    have hbeq : F32.beq (windowDet N raw) (F32.fin 0) = false := by
      rw [Bool.eq_false_iff]
      intro hb
      exact h ((F32.beq_zero_iff _).mp hb)
    show (if F32.beq (mtxInverse N raw).1 (F32.fin 0) = true
        then Except.error (Matrix.new (mtxInverse N raw).2 h1 h2)
        else Except.ok (Matrix.new (mtxInverse N raw).2 h1 h2)).isOk = true
    rw [mtxInverse_fst, hbeq]
    rfl

/-- Witness for C1: the all-zero 4x4 matrix has determinant zero and
`inverse()` returns it unchanged as `Err`; the 4x4 identity has nonzero
determinant and `inverse()` returns `Ok`. -/
theorem claim1_inverse_result_witness :
    (windowDet 4 zero44.raw = F32.fin 0 ∧
      zero44.inverse = Except.error zero44) ∧
    (windowDet 4 inf44.raw ≠ F32.fin 0 ∧ inf44.inverse.isOk = true) :=
  ⟨⟨windowDet_zero, (claim1_inverse_result 4 zero44).1 windowDet_zero⟩,
   ⟨by decide, (claim1_inverse_result 4 inf44).2 (by decide)⟩⟩

/-- Claim C2: every constructible `Matrix<M, N>` satisfies
`M ∈ {3, 4}` and `0 < N ≤ 4` (the validating constructor's assertions),
and the constructor stores its argument unchanged. -/
theorem claim2_shape_invariant :
    ∀ (M N : ℕ) (_A : Matrix M N),
      ((M = 3 ∨ M = 4) ∧ (0 < N ∧ N ≤ 4)) ∧
        ∀ (v : C3DMtx) (h1 : M = 3 ∨ M = 4) (h2 : 0 < N ∧ N ≤ 4),
          (Matrix.new v h1 h2).raw = v :=
  fun _ _ A => ⟨⟨A.rowSize, A.columnSize⟩, fun _ _ _ => rfl⟩

/-- Witness for C2 at a concrete matrix. -/
theorem claim2_shape_invariant_witness :
    (((4:ℕ) = 3 ∨ (4:ℕ) = 4) ∧ (0 < (3:ℕ) ∧ (3:ℕ) ≤ 4)) ∧
      ∀ (v : C3DMtx) (h1 : (4:ℕ) = 3 ∨ (4:ℕ) = 4)
        (h2 : 0 < (3:ℕ) ∧ (3:ℕ) ≤ 4), (Matrix.new v h1 h2).raw = v :=
  claim2_shape_invariant 4 3 sample43

/-- Claim C3: `==` on matrices and vectors is IEEE `==` agreement over
the logical window, and the padding slots never affect the result. -/
theorem claim3_eq_logical_window (M N K : ℕ) (hK : K = 3 ∨ K = 4)
    (A B C : Matrix M N) (v w u : FVec K) :
    ((Matrix.beq A B = true ↔
        ∀ i : Fin M, ∀ j : Fin N, F32.beq (A.get i j) (B.get i j) = true) ∧
      ((∀ i j, C.get i j = A.get i j) →
        Matrix.beq C B = Matrix.beq A B)) ∧
    ((FVec.beq v w = true ↔
        ∀ i : Fin K, F32.beq (v.get i) (w.get i) = true) ∧
      ((∀ i, u.get i = v.get i) → FVec.beq u w = FVec.beq v w)) := by
  have hK4 : K ≤ 4 := by rcases hK with h | h <;> omega
  exact ⟨⟨Matrix.beq_iff_get A B, Matrix.beq_window_congr A B C⟩,
    ⟨FVec.veq_iff_get hK4 v w, FVec.veq_window_congr hK4 v w u⟩⟩

/-- Witness for C3: two concrete vectors with the same logical window
but different padding slots compare the same way against any operand. -/
theorem claim3_eq_logical_window_witness :
    ((3:ℕ) = 3 ∨ (3:ℕ) = 4) ∧
    FVec.beq sampleVec3pad sampleVec3 = FVec.beq sampleVec3 sampleVec3 :=
  ⟨Or.inl rfl,
    (claim3_eq_logical_window 3 3 3 (Or.inl rfl) sample33 sample33 sample33
      sampleVec3 sampleVec3 sampleVec3pad).2.2 (by decide)⟩

/-- Claim C4: each in-place transform method composes the new transform
on the right of the existing matrix, `result = existing * new` (the new
transform acts on coordinates after the existing matrix's effect, in the
row-vector reading). -/
theorem claim4_compose_order (E : Matrix 4 4) (x y z c s : F32)
    (axis : FVec 3) :
    (E.translate x y z).raw = mtxMul4 E.raw (translationMtx x y z) ∧
    (E.scale x y z).raw = mtxMul4 E.raw (scaleMtx x y z) ∧
    (E.rotate axis c s).raw = mtxMul4 E.raw (rotAxisMtx axis c s) ∧
    (E.rotate_x c s).raw = mtxMul4 E.raw (rotXMtx c s) ∧
    (E.rotate_y c s).raw = mtxMul4 E.raw (rotYMtx c s) ∧
    (E.rotate_z c s).raw = mtxMul4 E.raw (rotZMtx c s) :=
  ⟨rfl, rfl, rfl, rfl, rfl, rfl⟩

/-- Claim C5 counterexample: the claim as stated fails on a matrix whose
window contains a NaN — transposing twice reproduces the storage exactly,
but `==` then returns `false`, not `true`. -/
theorem claim5_counterexample :
    Matrix.beq ((sample33nan.transpose (Or.inl rfl)).transpose (Or.inl rfl))
      sample33nan = false := by decide

/-- Claim C5 (amended): transposing twice returns a matrix whose entire
storage equals the original's, and consequently `==` returns `true`
whenever the logical window is NaN-free. -/
theorem claim5_transpose_involution {M N : ℕ} (A : Matrix M N)
    (hN : N = 3 ∨ N = 4) :
    ((A.transpose hN).transpose A.rowSize).raw = A.raw ∧
    ((∀ i j, A.get i j ≠ F32.nan) →
      Matrix.beq ((A.transpose hN).transpose A.rowSize) A = true) := by
  have hr : ((A.transpose hN).transpose A.rowSize).raw = A.raw := by
    funext i s
    have hi := i.isLt
    have hs := s.isLt
    show A.raw ⟨3 - (3 - i.val), _⟩ ⟨3 - (3 - s.val), _⟩ = A.raw i s
    exact raw_ext A.raw (by omega) (by omega)
  refine ⟨hr, fun h => ?_⟩
  rw [Matrix.beq_raw_congr _ A A hr]
  exact (Matrix.beq_self_iff A).mpr h

/-- Witness for C5 (amended) at a concrete finite 3x3 matrix. -/
theorem claim5_transpose_involution_witness :
    ((3:ℕ) = 3 ∨ (3:ℕ) = 4) ∧
    ((sample33.transpose (Or.inl rfl)).transpose sample33.rowSize).raw =
      sample33.raw ∧
    Matrix.beq ((sample33.transpose (Or.inl rfl)).transpose sample33.rowSize)
      sample33 = true :=
  ⟨Or.inl rfl, (claim5_transpose_involution sample33 (Or.inl rfl)).1,
    (claim5_transpose_involution sample33 (Or.inl rfl)).2 (by decide)⟩

/-- Claim C6: logical element `(i, j)` of `transpose()` equals logical
element `(j, i)` of the input, for every shape on which `transpose`
exists (the output shape `N`x`M` must itself pass the constructor's
assertions, hence the hypothesis). -/
theorem claim6_transpose_get {M N : ℕ} (A : Matrix M N)
    (hN : N = 3 ∨ N = 4) (i : Fin N) (j : Fin M) :
    (A.transpose hN).get i j = A.get j i := by
  have hi := i.isLt
  have hj := j.isLt
  have hM4 : M ≤ 4 := by rcases A.rowSize with h | h <;> omega
  show A.raw ⟨3 - (3 - j.val), _⟩ ⟨3 - i.val, _⟩ = A.raw ⟨j.val, _⟩ ⟨3 - i.val, _⟩
  exact raw_ext A.raw (by show 3 - (3 - j.val) = j.val; omega) rfl

/-- Witness for C6 on a concrete non-square (4x3) matrix and element. -/
theorem claim6_transpose_get_witness :
    ((3:ℕ) = 3 ∨ (3:ℕ) = 4) ∧
    (sample43.transpose (Or.inl rfl)).get 2 3 = sample43.get 3 2 :=
  ⟨Or.inl rfl, claim6_transpose_get sample43 (Or.inl rfl) 2 3⟩

/-- Claim C7 counterexample: the claim as stated fails on a square
matrix with an infinite entry — multiplying by the identity produces
`0 * inf = NaN` terms in the dot products, so the product does not
compare equal to the original. -/
theorem claim7_counterexample :
    Matrix.beq
      ((Matrix.identity 3 (Or.inl rfl)).mul sample33inf
        sample33inf.columnSize)
      sample33inf = false := by decide

/-- Claim C7 (amended): for every square matrix all of whose logical
entries are finite, multiplying by `identity()` on either side yields a
matrix that compares `==` equal to the original. -/
theorem claim7_identity_neutral (N : ℕ) (hN : N = 3 ∨ N = 4)
    (A : Matrix N N) (hfin : ∀ i j, (A.get i j).isFin = true) :
    Matrix.beq ((Matrix.identity N hN).mul A A.columnSize) A = true ∧
    Matrix.beq (A.mul (Matrix.identity N hN)
      (Matrix.identity N hN).columnSize) A = true := by
  constructor
  · rw [Matrix.beq_iff_get]
    intro i j
    rw [Matrix.get_mul]
    have hmap : (fun k => F32.mul ((Matrix.identity N hN).get i k)
        (A.get k j)) =
        fun k => F32.mul (if i = k then F32.fin 1 else F32.fin 0)
          (F32.fin ((A.get k j).toQ)) := by
      funext k
      rw [Matrix.get_identity, ← F32.eq_fin_toQ (hfin k j)]
    rw [hmap, F32.delta_dot]
    have hf := hfin i j
    rcases hx : A.get i j with _ | t | a
    · rw [hx] at hf; simp [F32.isFin] at hf
    · rw [hx] at hf; simp [F32.isFin] at hf
    · simp [F32.toQ, F32.beq]
  · rw [Matrix.beq_iff_get]
    intro i j
    rw [Matrix.get_mul]
    have hmap : (fun k => F32.mul (A.get i k)
        ((Matrix.identity N hN).get k j)) =
        fun k => F32.mul (F32.fin ((A.get i k).toQ))
          (if k = j then F32.fin 1 else F32.fin 0) := by
      funext k
      rw [Matrix.get_identity, ← F32.eq_fin_toQ (hfin i k)]
    rw [hmap, F32.dot_delta]
    have hf := hfin i j
    rcases hx : A.get i j with _ | t | a
    · rw [hx] at hf; simp [F32.isFin] at hf
    · rw [hx] at hf; simp [F32.isFin] at hf
    · simp [F32.toQ, F32.beq]

/-- Witness for C7 (amended) at a concrete finite 3x3 matrix. -/
theorem claim7_identity_neutral_witness :
    ((3:ℕ) = 3 ∨ (3:ℕ) = 4) ∧
    (∀ i j, ((sample33.get i j).isFin = true)) ∧
    Matrix.beq ((Matrix.identity 3 (Or.inl rfl)).mul sample33
      sample33.columnSize) sample33 = true :=
  ⟨Or.inl rfl, by decide,
    (claim7_identity_neutral 3 (Or.inl rfl) sample33 (by decide)).1⟩

/-- Claim C8: `Matrix<4, 3> * FVec3` multiplies after homogeneous
promotion — the result equals the matrix's 4x4 storage applied to the
promoted vector `(x, y, z, 1)`. -/
theorem claim8_homogeneous_promotion (A : Matrix 4 3) (v : FVec 3)
    (B : Matrix 4 4) (h : B.raw = A.raw) :
    A.mulFVecH v = B.mulFVec4 ⟨promoteH v.raw⟩ ∧
    (⟨promoteH v.raw⟩ : FVec 4).get 3 = F32.fin 1 ∧
    ∀ i : Fin 3,
      (⟨promoteH v.raw⟩ : FVec 4).get ⟨i.val, by omega⟩ = v.get i := by
  refine ⟨?_, rfl, fun i => ?_⟩
  · show FVec.mk (Mtx_MultiplyFVec4 A.raw (promoteH v.raw)) =
      FVec.mk (Mtx_MultiplyFVec4 B.raw (promoteH v.raw))
    rw [h]
  · have hi := i.isLt
    show promoteH v.raw ⟨3 - i.val, _⟩ = v.raw ⟨3 - i.val, _⟩
    rw [promoteH, if_neg (by show ¬(3 - i.val = 0); omega)]

/-- Witness for C8 at a concrete matrix pair sharing storage. -/
theorem claim8_homogeneous_promotion_witness :
    sample44shared.raw = sample43.raw ∧
    sample43.mulFVecH sampleVec3 =
      sample44shared.mulFVec4 ⟨promoteH sampleVec3.raw⟩ :=
  ⟨rfl, (claim8_homogeneous_promotion sample43 sampleVec3 sample44shared
    rfl).1⟩

/-- Claim C9: scalar division of a vector is exactly scaling by the
reciprocal (definitionally, from the source), and division by zero
produces non-finite (infinity or NaN) components rather than a failure
value. -/
theorem claim9_div_is_scale_reciprocal (N : ℕ) (hN : N = 3 ∨ N = 4)
    (v : FVec N) (k : F32) :
    v.div k = v.scale (F32.div (F32.fin 1) k) ∧
    ∀ i : Fin N, ((v.div (F32.fin 0)).get i).isFin = false := by
  refine ⟨rfl, fun i => ?_⟩
  have hi := i.isLt
  have hN4 : N ≤ 4 := by rcases hN with h | h <;> omega
  have hdiv : F32.div (F32.fin 1) (F32.fin 0) = F32.inf false := by
    simp [F32.div]
  show ((v.scale (F32.div (F32.fin 1) (F32.fin 0))).raw ⟨3 - i.val, _⟩).isFin
    = false
  rw [hdiv]
  show (if 4 - N ≤ 3 - i.val
      then F32.mul (v.raw ⟨3 - i.val, by omega⟩) (F32.inf false)
      else F32.fin 0).isFin = false
  rw [if_pos (by omega : 4 - N ≤ 3 - i.val)]
  exact F32.mul_posinf_not_fin _

/-- Witness for C9 at a concrete 3-vector. -/
theorem claim9_div_is_scale_reciprocal_witness :
    ((3:ℕ) = 3 ∨ (3:ℕ) = 4) ∧
    ((sampleVec3.div (F32.fin 0)).get 1).isFin = false :=
  ⟨Or.inl rfl,
    (claim9_div_is_scale_reciprocal 3 (Or.inl rfl) sampleVec3
      (F32.fin 0)).2 1⟩

/-- Claim C10: `==` self-comparison returns `false` exactly when the
logical window contains a NaN, and `true` otherwise, for both vectors
and matrices. -/
theorem claim10_nan_reflexivity (N : ℕ) (hN : N = 3 ∨ N = 4) (v : FVec N)
    (M P : ℕ) (A : Matrix M P) :
    (FVec.beq v v = true ↔ ∀ i : Fin N, v.get i ≠ F32.nan) ∧
    (Matrix.beq A A = true ↔
      ∀ i : Fin M, ∀ j : Fin P, A.get i j ≠ F32.nan) := by
  have hN4 : N ≤ 4 := by rcases hN with h | h <;> omega
  exact ⟨FVec.veq_self_iff hN4 v, Matrix.beq_self_iff A⟩

/-- Witness for C10: a NaN-free vector and matrix compare equal to
themselves (and a NaN-carrying vector does not, shown by evaluation). -/
theorem claim10_nan_reflexivity_witness :
    ((3:ℕ) = 3 ∨ (3:ℕ) = 4) ∧
    FVec.beq sampleVec3 sampleVec3 = true ∧
    Matrix.beq sample33 sample33 = true ∧
    FVec.beq sampleVec3nan sampleVec3nan = false :=
  ⟨Or.inl rfl,
    (claim10_nan_reflexivity 3 (Or.inl rfl) sampleVec3 3 3 sample33).1.mpr
      (by decide),
    (claim10_nan_reflexivity 3 (Or.inl rfl) sampleVec3 3 3 sample33).2.mpr
      (by decide),
    by decide⟩

end Citro3d
